import Mathlib

set_option maxHeartbeats 1000000

/-
  Verification development for the bbgo trading-engine core:
  a shallow embedding, in Lean 4, of the state-synchronization and
  reconciliation components (circuit breaker, active order book,
  indicator pipeline, historical sync service) together with proofs
  of the specified properties.

  Modelling conventions:
  * Go `float64` indicator analytics and `fixedpoint.Value` amounts are
    modelled as `ℚ`.
  * Go `time.Time` values are modelled as `Int` ticks; the zero value of
    `time.Time` (used as a sentinel) is modelled as `0`.
  * Go maps keyed by OrderID are modelled as association lists of orders;
    key uniqueness is carried as an explicit `Nodup` hypothesis where the
    claim needs it.
-/

/-! ## Basic data model (pkg/types) -/

/-- Go `types.SideType` is a string; the buy side constant. -/
def SideTypeBuy : String := "BUY"

/-- Go `types.SideType` is a string; the sell side constant. -/
def SideTypeSell : String := "SELL"

/-- Go `types.OrderStatus` is a string; the filled status constant. -/
def OrderStatusFilled : String := "FILLED"

/-- The fields of Go `types.Order` used by the active order book:
exchange-assigned OrderID, side and status. -/
structure Order where
  orderID : Nat
  side : String
  status : String
deriving DecidableEq

/-- The fields of Go `types.Trade` used by the sync service: the
exchange-assigned numeric ID and the trade time (as ticks). -/
structure Trade where
  id : Int
  time : Int
deriving DecidableEq

/-! ## Circuit Break Risk Control -/

/-- Modelled from the spec: the `CircuitBreakRiskControl` implementation
(`NewCircuitBreakRiskControl` / `IsHalted`) is not among the provided
sources; only its test `Test_IsHalted` is.  Per spec §4.5:
`unrealizedPnL = position.base × (markPrice − position.averageCost)`,
`totalPnL = unrealizedPnL + realizedPnL`,
`halted = totalPnL ≤ breakThreshold`, and a zero position always yields
`halted = false` (the zero-position clause takes precedence). -/
def CircuitBreakRiskControl.isHalted
    (base averageCost markPrice realizedPnL breakCondition : ℚ) : Bool :=
  if base = 0 then false
  else decide (base * (markPrice - averageCost) + realizedPnL ≤ breakCondition)

/-! ## Historical Sync Service (pkg/service/sync.go) -/

/-- The fields of Go `types.TradeQueryOptions` produced by `SyncTrades`. -/
structure TradeQueryOptions where
  startTime : Int
  limit : Nat
  lastTradeID : Int
deriving DecidableEq

/-- Translated from `SyncService.SyncTrades` (pkg/service/sync.go lines
54-73): the start-time/cursor computation feeding `BatchQueryTrades`.
`lastTrade` is the result of `TradeService.QueryLast` on durable storage
(an external collaborator per spec §6); `startTime` is the caller-supplied
fallback. -/
def SyncService.syncTradesQuery (lastTrade : Option Trade) (startTime : Int) :
    TradeQueryOptions :=
  match lastTrade with
  | some t => { startTime := t.time, limit := 200, lastTradeID := t.id }
  | none => { startTime := startTime, limit := 200, lastTradeID := 0 }

/-- The query parameters handed to `BatchQueryClosedOrders` by `SyncOrders`:
resume start time and the `lastID` cursor. -/
structure ClosedOrdersQuery where
  since : Int
  lastOrderID : Nat
deriving DecidableEq

/-- The fields of a persisted order record used by `SyncOrders`:
`OrderID` and `CreationTime`. -/
structure OrderRecord where
  orderID : Nat
  creationTime : Int
deriving DecidableEq

/-- Translated from `SyncService.SyncOrders` (pkg/service/sync.go lines
17-32): the start-time/cursor computation feeding
`BatchQueryClosedOrders`.  `lastOrder` is the result of
`OrderService.QueryLast` on durable storage. -/
def SyncService.syncOrdersQuery (lastOrder : Option OrderRecord) (startTime : Int) :
    ClosedOrdersQuery :=
  match lastOrder with
  | some o => { since := o.creationTime, lastOrderID := o.orderID }
  | none => { since := startTime, lastOrderID := 0 }

/-- Translated from `NewEnvironment` (environment, pkg/bbgo): the default
trade scan time is `time.Now().AddDate(0, 0, -7)`, i.e. 7 days before
now (modelled in seconds). -/
def Environment.defaultTradeScanTime (now : Int) : Int :=
  now - 7 * 86400

/-! ## Active Order Book (pkg/bbgo/active_book.go) -/

/-- Modelled from the spec: Go `types.SyncOrderMap` (not among the provided
sources) is a mutex-guarded map keyed by OrderID (spec §3: "two disjoint
mappings (bid orders, ask orders) keyed by OrderID"; "an order is added only
once (idempotent by key)").  Modelled as an association list of orders;
Go map iteration order is arbitrary, so iteration-dependent operations
pick the first matching entry in list order. -/
abbrev SyncOrderMap := List Order

/-- Map insertion `m.orders[o.OrderID] = o`: replaces the entry with the
same OrderID if present, otherwise appends. -/
def SyncOrderMap.add (m : SyncOrderMap) (o : Order) : SyncOrderMap :=
  if m.any (fun x => x.orderID == o.orderID) then
    m.map (fun x => if x.orderID == o.orderID then o else x)
  else m ++ [o]

/-- Map deletion by OrderID, a no-op if the key is absent. -/
def SyncOrderMap.deleteKey (m : SyncOrderMap) (orderID : Nat) : SyncOrderMap :=
  m.filter (fun x => x.orderID != orderID)

/-- `SyncOrderMap.AnyFilled`: returns some order currently flagged filled,
if any (the first in iteration order). -/
def SyncOrderMap.anyFilled (m : SyncOrderMap) : Option Order :=
  m.find? (fun x => x.status == OrderStatusFilled)

/-- `LocalActiveOrderBook` (pkg/bbgo/active_book.go): bid and ask mappings
of the engine's own open orders. -/
structure LocalActiveOrderBook where
  bids : SyncOrderMap
  asks : SyncOrderMap
deriving DecidableEq

/-- `NewLocalActiveOrderBook`: both sides empty. -/
def LocalActiveOrderBook.new : LocalActiveOrderBook := ⟨[], []⟩

/-- One iteration of `LocalActiveOrderBook.Add`'s loop: insert by side;
orders whose side is neither buy nor sell are ignored (the Go `switch`
has no default case). -/
def LocalActiveOrderBook.addOne (b : LocalActiveOrderBook) (order : Order) :
    LocalActiveOrderBook :=
  if order.side == SideTypeBuy then { b with bids := b.bids.add order }
  else if order.side == SideTypeSell then { b with asks := b.asks.add order }
  else b

/-- `LocalActiveOrderBook.Add(orders...)`: inserts each order by side. -/
def LocalActiveOrderBook.add (b : LocalActiveOrderBook) (orders : List Order) :
    LocalActiveOrderBook :=
  orders.foldl LocalActiveOrderBook.addOne b

/-- `LocalActiveOrderBook.Delete`: removes by OrderID on the order's side. -/
def LocalActiveOrderBook.delete (b : LocalActiveOrderBook) (order : Order) :
    LocalActiveOrderBook :=
  if order.side == SideTypeBuy then { b with bids := b.bids.deleteKey order.orderID }
  else if order.side == SideTypeSell then { b with asks := b.asks.deleteKey order.orderID }
  else b

/-- `LocalActiveOrderBook.WriteOff` (active_book.go lines 66-90): writes off
the filled order against any filled order on the opposite side; returns the
Go boolean result together with the updated book. -/
def LocalActiveOrderBook.writeOff (b : LocalActiveOrderBook) (order : Order) :
    Bool × LocalActiveOrderBook :=
  if order.status != OrderStatusFilled then (false, b)
  else if order.side == SideTypeSell then
    match b.bids.anyFilled with
    | some filledOrder =>
        (true, { bids := b.bids.deleteKey filledOrder.orderID,
                 asks := b.asks.deleteKey order.orderID })
    | none => (false, b)
  else if order.side == SideTypeBuy then
    match b.asks.anyFilled with
    | some filledOrder =>
        (true, { asks := b.asks.deleteKey filledOrder.orderID,
                 bids := b.bids.deleteKey order.orderID })
    | none => (false, b)
  else (false, b)

/-! ## Supporting lemmas for the active order book -/

theorem SyncOrderMap.anyFilled_eq_none_iff (m : SyncOrderMap) :
    m.anyFilled = none ↔ ∀ x ∈ m, x.status ≠ OrderStatusFilled := by
  simp [SyncOrderMap.anyFilled, List.find?_eq_none]

theorem SyncOrderMap.anyFilled_isSome_of_exists (m : SyncOrderMap)
    (h : ∃ x ∈ m, x.status = OrderStatusFilled) : ∃ f, m.anyFilled = some f := by
  rcases h with ⟨x, hx, hs⟩
  rcases hf : m.anyFilled with _ | f
  · exact absurd hs (((SyncOrderMap.anyFilled_eq_none_iff m).mp hf) x hx)
  · exact ⟨f, rfl⟩

theorem SyncOrderMap.anyFilled_mem {m : SyncOrderMap} {f : Order}
    (h : m.anyFilled = some f) : f ∈ m ∧ f.status = OrderStatusFilled := by
  refine ⟨List.mem_of_find?_eq_some h, ?_⟩
  have := List.find?_some h
  simpa using this

theorem SyncOrderMap.mem_deleteKey_of_ne {m : SyncOrderMap} {k : Nat} {x : Order}
    (hx : x ∈ m) (hne : x.orderID ≠ k) : x ∈ m.deleteKey k := by
  simp [SyncOrderMap.deleteKey, List.mem_filter, hx, hne]

theorem SyncOrderMap.length_deleteKey_of_mem {m : SyncOrderMap} {f : Order}
    (hf : f ∈ m) (hnd : (m.map Order.orderID).Nodup) :
    (m.deleteKey f.orderID).length = m.length - 1 := by
  induction m with
  | nil => cases hf
  | cons a rest ih =>
    rcases List.nodup_cons.mp hnd with ⟨hka, hndr⟩
    by_cases hk : a.orderID = f.orderID
    · have hall : ∀ x ∈ rest, (x.orderID != f.orderID) = true := by
        intro x hxm
        have : x.orderID ≠ f.orderID := by
          intro hcontra
          exact hka (by rw [hk, ← hcontra]; exact List.mem_map_of_mem Order.orderID hxm)
        simpa using this
      simp [SyncOrderMap.deleteKey, hk, List.filter_eq_self.mpr hall]
    · have hfr : f ∈ rest := by
        rcases List.mem_cons.mp hf with h | h
        · exact absurd (congrArg Order.orderID h.symm) hk
        · exact h
      have hlen : 1 ≤ rest.length := List.length_pos.mpr (List.ne_nil_of_mem hfr)
      have := ih hfr hndr
      simp only [SyncOrderMap.deleteKey] at this ⊢
      have hkeep : (a.orderID != f.orderID) = true := by simpa using hk
      rw [List.filter_cons]
      simp only [hkeep, if_true, List.length_cons, this]
      omega

/-! ## Operation sequences on the active order book (for the C8 invariant) -/

/-- The mutating operations of the active order book (spec §4.3). -/
inductive BookOp where
  | add (orders : List Order)
  | del (order : Order)
  | writeOff (order : Order)
deriving DecidableEq

/-- Apply one operation to the book (the boolean result of `WriteOff` is
dropped; only the state matters for the invariant). -/
def LocalActiveOrderBook.applyOp (b : LocalActiveOrderBook) : BookOp → LocalActiveOrderBook
  | .add orders => b.add orders
  | .del o => b.delete o
  | .writeOff o => (b.writeOff o).2

/-- Run a sequence of operations from the empty book. -/
def runOps (ops : List BookOp) : LocalActiveOrderBook :=
  ops.foldl LocalActiveOrderBook.applyOp LocalActiveOrderBook.new

/-- The orders an operation mentions. -/
def BookOp.orders : BookOp → List Order
  | .add os => os
  | .del o => [o]
  | .writeOff o => [o]

/-- All orders mentioned by a sequence of operations. -/
def opsOrders (ops : List BookOp) : List Order :=
  (ops.map BookOp.orders).flatten

/-- Invariant carried through C8's proof: every bid has side buy, every ask
side sell, and all entries come from the pool `S` of mentioned orders. -/
def BookSides (S : List Order) (b : LocalActiveOrderBook) : Prop :=
  (∀ x ∈ b.bids, x.side = SideTypeBuy ∧ x ∈ S) ∧
  (∀ x ∈ b.asks, x.side = SideTypeSell ∧ x ∈ S)

theorem SyncOrderMap.mem_add {m : SyncOrderMap} {o x : Order} (hx : x ∈ m.add o) :
    x = o ∨ x ∈ m := by
  unfold SyncOrderMap.add at hx
  by_cases hc : m.any (fun x => x.orderID == o.orderID) = true
  · rw [if_pos hc] at hx
    rcases List.mem_map.mp hx with ⟨y, hy, hxy⟩
    by_cases h : (y.orderID == o.orderID) = true
    · rw [if_pos h] at hxy
      exact Or.inl hxy.symm
    · rw [if_neg h] at hxy
      exact Or.inr (hxy ▸ hy)
  · rw [if_neg hc] at hx
    rcases List.mem_append.mp hx with h | h
    · exact Or.inr h
    · exact Or.inl (by simpa using h)

theorem SyncOrderMap.mem_of_mem_deleteKey {m : SyncOrderMap} {k : Nat} {x : Order}
    (hx : x ∈ m.deleteKey k) : x ∈ m :=
  (List.mem_filter.mp hx).1

theorem bookSides_filter {S : List Order} {bids asks : SyncOrderMap}
    (hb : BookSides S ⟨bids, asks⟩) (k1 k2 : Nat) :
    BookSides S ⟨bids.deleteKey k1, asks.deleteKey k2⟩ :=
  ⟨fun x hx => hb.1 x (SyncOrderMap.mem_of_mem_deleteKey hx),
   fun x hx => hb.2 x (SyncOrderMap.mem_of_mem_deleteKey hx)⟩

theorem bookSides_addOne {S : List Order} {b : LocalActiveOrderBook} {o : Order}
    (hb : BookSides S b) (ho : o ∈ S) : BookSides S (b.addOne o) := by
  unfold LocalActiveOrderBook.addOne
  by_cases hbuy : (o.side == SideTypeBuy) = true
  · rw [if_pos hbuy]
    refine ⟨fun x hx => ?_, hb.2⟩
    rcases SyncOrderMap.mem_add hx with rfl | h
    · exact ⟨by simpa using hbuy, ho⟩
    · exact hb.1 x h
  · rw [if_neg hbuy]
    by_cases hsell : (o.side == SideTypeSell) = true
    · rw [if_pos hsell]
      refine ⟨hb.1, fun x hx => ?_⟩
      rcases SyncOrderMap.mem_add hx with rfl | h
      · exact ⟨by simpa using hsell, ho⟩
      · exact hb.2 x h
    · rw [if_neg hsell]
      exact hb

theorem bookSides_add {S : List Order} (os : List Order) (b : LocalActiveOrderBook)
    (hb : BookSides S b) (hos : ∀ o ∈ os, o ∈ S) : BookSides S (b.add os) := by
  unfold LocalActiveOrderBook.add
  induction os generalizing b with
  | nil => simpa
  | cons o rest ih =>
    simp only [List.foldl_cons]
    exact ih _ (bookSides_addOne hb (hos o (List.mem_cons_self o rest)))
      (fun x hx => hos x (List.mem_cons_of_mem o hx))

theorem bookSides_delete {S : List Order} {b : LocalActiveOrderBook} (o : Order)
    (hb : BookSides S b) : BookSides S (b.delete o) := by
  unfold LocalActiveOrderBook.delete
  by_cases h1 : (o.side == SideTypeBuy) = true
  · rw [if_pos h1]
    exact ⟨fun x hx => hb.1 x (SyncOrderMap.mem_of_mem_deleteKey hx), hb.2⟩
  · rw [if_neg h1]
    by_cases h2 : (o.side == SideTypeSell) = true
    · rw [if_pos h2]
      exact ⟨hb.1, fun x hx => hb.2 x (SyncOrderMap.mem_of_mem_deleteKey hx)⟩
    · rw [if_neg h2]
      exact hb

theorem bookSides_writeOff {S : List Order} {b : LocalActiveOrderBook} (o : Order)
    (hb : BookSides S b) : BookSides S (b.writeOff o).2 := by
  obtain ⟨bids, asks⟩ := b
  unfold LocalActiveOrderBook.writeOff
  by_cases h1 : (o.status != OrderStatusFilled) = true
  · rw [if_pos h1]
    exact hb
  · rw [if_neg h1]
    by_cases h2 : (o.side == SideTypeSell) = true
    · rw [if_pos h2]
      cases haf : SyncOrderMap.anyFilled bids with
      | none => exact hb
      | some f => exact bookSides_filter hb f.orderID o.orderID
    · rw [if_neg h2]
      by_cases h3 : (o.side == SideTypeBuy) = true
      · rw [if_pos h3]
        cases haf : SyncOrderMap.anyFilled asks with
        | none => exact hb
        | some f => exact bookSides_filter hb o.orderID f.orderID
      · rw [if_neg h3]
        exact hb

theorem bookSides_applyOp {S : List Order} {b : LocalActiveOrderBook} (op : BookOp)
    (hb : BookSides S b) (hop : ∀ o ∈ op.orders, o ∈ S) :
    BookSides S (b.applyOp op) := by
  cases op with
  | add os => exact bookSides_add os b hb hop
  | del o => exact bookSides_delete o hb
  | writeOff o => exact bookSides_writeOff o hb

theorem bookSides_run {S : List Order} (ops : List BookOp) (b : LocalActiveOrderBook)
    (hb : BookSides S b) (hops : ∀ o ∈ opsOrders ops, o ∈ S) :
    BookSides S (ops.foldl LocalActiveOrderBook.applyOp b) := by
  induction ops generalizing b with
  | nil => simpa
  | cons op rest ih =>
    simp only [List.foldl_cons]
    have hmem : ∀ o ∈ op.orders, o ∈ S := by
      intro o ho
      exact hops o (by simp [opsOrders, ho])
    refine ih _ (bookSides_applyOp op hb hmem) ?_
    intro o ho
    apply hops
    simp only [opsOrders, List.map_cons, List.flatten] at ho ⊢
    exact List.mem_append_right _ (by simpa [opsOrders] using ho)

/-! ## Indicator pipeline: common material (pkg/indicator, pkg/types) -/

/-- The fields of Go `types.KLine` consumed by the indicators: OHLCV
analytics as `ℚ` and the candle end time as `Int` ticks (`0` models the
zero `time.Time`). -/
structure KLine where
  high : ℚ
  low : ℚ
  close : ℚ
  volume : ℚ
  endTime : Int
deriving DecidableEq

/-- Modelled from the spec: the indicator package constants `MaxNumOfEWMA`
and `MaxNumOfEWMATruncateSize` (ewma.go, not among the provided sources);
spec §3 requires a fixed cap on every indicator's value history with the
oldest values truncated; the package caps at 1000 and truncates in blocks
of 100. -/
def MaxNumOfEWMA : Nat := 1000

/-- Modelled from the spec: see `MaxNumOfEWMA`. -/
def MaxNumOfEWMATruncateSize : Nat := 100

/-- `types.Float64Slice.Last`: the last element, `0` when empty. -/
def Float64Slice.last (s : List ℚ) : ℚ :=
  s.getLastD 0

/-- `types.Float64Slice.Index`: `s[len-1-i]`, `0` when out of range
(position 0 is the most recent value). -/
def Float64Slice.index (s : List ℚ) (i : Nat) : ℚ :=
  if i < s.length then s.getD (s.length - 1 - i) 0 else 0

/-- Modelled from the spec: the `types.Series` view used by the series
helpers (pkg/types, not among the provided sources): a value at each
reverse-chronological index together with a length. -/
structure QSeries where
  index : Nat → ℚ
  length : Nat

/-- A `Float64Slice` viewed as a series. -/
def Float64Slice.toSeries (s : List ℚ) : QSeries :=
  { index := fun i => Float64Slice.index s i, length := s.length }

/-- Modelled from the spec: `types.Change` (pkg/types, not among the
provided sources): the first-difference series, `index i = a i − a (i+1)`,
one element shorter. -/
def QSeries.change (a : QSeries) : QSeries :=
  { index := fun i => a.index i - a.index (i + 1), length := a.length - 1 }

/-- Modelled from the spec: `types.Abs` (pkg/types, not among the provided
sources): the elementwise absolute value of a series. -/
def QSeries.absSeries (a : QSeries) : QSeries :=
  { index := fun i => |a.index i|, length := a.length }

/-- Modelled from the spec: `types.Sum` (pkg/types, not among the provided
sources): the sum of the most recent `limit` values (fewer when the series
is shorter). -/
def QSeries.sum (a : QSeries) (limit : Nat) : ℚ :=
  (List.range (min limit a.length)).foldl (fun acc i => acc + a.index i) 0

/-! ## VIDYA (pkg/indicator/vidya.go) -/

/-- The state of `indicator.VIDYA`: window, value history, raw input
history. -/
structure VIDYA where
  window : Nat
  values : List ℚ
  input : List ℚ
deriving DecidableEq

/-- A freshly constructed VIDYA (`&VIDYA{IntervalWindow: ...}`). -/
def VIDYA.new (window : Nat) : VIDYA := ⟨window, [], []⟩

/-- Translated from `VIDYA.Update` (vidya.go lines 20-55): first value is
stored as-is; afterwards the input is pushed (and truncated at the cap),
CMO is `|Sum(change, window) / Sum(|change|, window)|`, and the new value
is an adaptive EMA step with factor `alpha × CMO`,
`alpha = 2/(window+1)`. -/
def VIDYA.update (inc : VIDYA) (value : ℚ) : VIDYA :=
  if inc.values.length = 0 then
    { inc with values := inc.values ++ [value], input := inc.input ++ [value] }
  else
    let input1 := inc.input ++ [value]
    let input2 := if input1.length > MaxNumOfEWMA then
        input1.drop (MaxNumOfEWMATruncateSize - 1) else input1
    let change := (Float64Slice.toSeries input2).change
    let CMO := |QSeries.sum change inc.window / QSeries.sum change.absSeries inc.window|
    let alpha : ℚ := 2 / ((inc.window : ℚ) + 1)
    let values1 := inc.values ++
      [value * alpha * CMO + Float64Slice.last inc.values * (1 - alpha * CMO)]
    let values2 := if values1.length > MaxNumOfEWMA then
        values1.drop (MaxNumOfEWMATruncateSize - 1) else values1
    { inc with values := values2, input := input2 }

/-- Translated from `VIDYA.calculateAndUpdate` (vidya.go lines 71-81):
a never-updated indicator consumes every candle of the window (cold
start); an initialized one consumes only the most recent candle.  On an
empty window the Go code would index `allKLines[-1]` and panic in the
initialized case; modelled as the identity (unreachable below: the store
always delivers nonempty windows). -/
def VIDYA.calculateAndUpdate (inc : VIDYA) (allKLines : List KLine) : VIDYA :=
  if inc.input.length == 0 then
    allKLines.foldl (fun s k => s.update k.close) inc
  else
    match allKLines.getLast? with
    | some k => inc.update k.close
    | none => inc

/-! ## CCI (pkg/indicator/cci.go) -/

/-- The state of `indicator.CCI`: window, raw input, running typical-price
sums, moving average and value histories. -/
structure CCI where
  window : Nat
  input : List ℚ
  typicalPrice : List ℚ
  ma : List ℚ
  values : List ℚ
deriving DecidableEq

/-- A freshly constructed CCI. -/
def CCI.new (window : Nat) : CCI := ⟨window, [], [], [], []⟩

/-- Translated from `CCI.Update` (cci.go lines 25-60).  `math.Sqrt` is kept
abstract as the parameter `sqrtF` (float analytics); the cold/steady
equivalence below holds for every such function.  `0.015 = 3/200`. -/
def CCI.update (sqrtF : ℚ → ℚ) (inc : CCI) (value : ℚ) : CCI :=
  if inc.typicalPrice.length = 0 then
    { inc with typicalPrice := inc.typicalPrice ++ [value],
               input := inc.input ++ [value] }
  else
    let tpl := if inc.typicalPrice.length > MaxNumOfEWMA then
        inc.typicalPrice.drop (MaxNumOfEWMATruncateSize - 1) else inc.typicalPrice
    let inp0 := if inc.typicalPrice.length > MaxNumOfEWMA then
        inc.input.drop (MaxNumOfEWMATruncateSize - 1) else inc.input
    let inp := inp0 ++ [value]
    let tp := Float64Slice.last tpl - Float64Slice.index inp inc.window + value
    let tpl2 := tpl ++ [tp]
    if inp.length < inc.window then
      { inc with typicalPrice := tpl2, input := inp }
    else
      let ma := tp / (inc.window : ℚ)
      let ma1 := inc.ma ++ [ma]
      let ma2 := if ma1.length > MaxNumOfEWMA then
          ma1.drop (MaxNumOfEWMATruncateSize - 1) else ma1
      let md := sqrtF (((List.range inc.window).foldl
        (fun acc i => acc + (Float64Slice.index inp i - ma) * (Float64Slice.index inp i - ma))
        0) / (inc.window : ℚ))
      let cci := (value - ma) / ((3 / 200) * md)
      let vals1 := inc.values ++ [cci]
      let vals2 := if vals1.length > MaxNumOfEWMA then
          vals1.drop (MaxNumOfEWMATruncateSize - 1) else vals1
      { inc with typicalPrice := tpl2, input := inp, ma := ma2, values := vals2 }

/-- Translated from `CCI.calculateAndUpdate` (cci.go lines 84-95): cold
start consumes every candle, steady state only the last; the input value
is the typical price `(high + low + close) / 3`. -/
def CCI.calculateAndUpdate (sqrtF : ℚ → ℚ) (inc : CCI) (allKLines : List KLine) : CCI :=
  if inc.typicalPrice.length == 0 then
    allKLines.foldl (fun s k => CCI.update sqrtF s ((k.high + k.low + k.close) / 3)) inc
  else
    match allKLines.getLast? with
    | some k => CCI.update sqrtF inc ((k.high + k.low + k.close) / 3)
    | none => inc

/-! ## Cold-start / steady-state machinery (for C3) -/

/-- The shared shape of `calculateAndUpdate` for window-based indicators
(vidya.go, cci.go, tma.go, zlema.go): consume the whole window when fresh,
only its most recent candle otherwise. -/
def coldSteadyCalc {σ : Type} (fresh : σ → Bool) (upd : σ → KLine → σ)
    (s : σ) (allKLines : List KLine) : σ :=
  if fresh s then allKLines.foldl upd s
  else
    match allKLines.getLast? with
    | some k => upd s k
    | none => s

/-- Feeding candles one at a time: after each closed candle the store
notifies the indicator with the full current window (spec §4.1), i.e. with
`done ++ [k]` for each successive candle `k`. -/
def steadyFeedAux {σ : Type} (handle : σ → List KLine → σ) (s : σ)
    (done rest : List KLine) : σ :=
  match rest with
  | [] => s
  | k :: rest => steadyFeedAux handle (handle s (done ++ [k])) (done ++ [k]) rest

/-- Feeding a candle sequence one at a time from scratch. -/
def steadyFeed {σ : Type} (handle : σ → List KLine → σ) (s : σ)
    (ks : List KLine) : σ :=
  steadyFeedAux handle s [] ks

theorem steadyFeedAux_of_not_fresh {σ : Type} (fresh : σ → Bool) (upd : σ → KLine → σ)
    (hupd : ∀ s k, fresh (upd s k) = false) :
    ∀ (rest done : List KLine) (s : σ), fresh s = false →
      steadyFeedAux (coldSteadyCalc fresh upd) s done rest = rest.foldl upd s := by
  intro rest
  induction rest with
  | nil => intro done s _; rfl
  | cons k rest ih =>
    intro done s hs
    have hcalc : coldSteadyCalc fresh upd s (done ++ [k]) = upd s k := by
      simp [coldSteadyCalc, hs]
    simp only [steadyFeedAux, List.foldl_cons, hcalc]
    exact ih (done ++ [k]) (upd s k) (hupd s k)

theorem steadyFeed_eq_foldl {σ : Type} (fresh : σ → Bool) (upd : σ → KLine → σ)
    (hupd : ∀ s k, fresh (upd s k) = false)
    (s : σ) (hs : fresh s = true) (ks : List KLine) :
    steadyFeed (coldSteadyCalc fresh upd) s ks = ks.foldl upd s := by
  cases ks with
  | nil => rfl
  | cons k rest =>
    have hcalc : coldSteadyCalc fresh upd s ([] ++ [k]) = upd s k := by
      simp [coldSteadyCalc, hs]
    simp only [steadyFeed, steadyFeedAux, hcalc, List.foldl_cons]
    exact steadyFeedAux_of_not_fresh fresh upd hupd rest ([] ++ [k]) (upd s k) (hupd s k)

theorem coldCalc_eq_foldl {σ : Type} (fresh : σ → Bool) (upd : σ → KLine → σ)
    (s : σ) (hs : fresh s = true) (ks : List KLine) :
    coldSteadyCalc fresh upd s ks = ks.foldl upd s := by
  simp [coldSteadyCalc, hs]

theorem truncKeep_length_pos (l : List ℚ) (h : l.length ≠ 0) :
    (if l.length > MaxNumOfEWMA then
      l.drop (MaxNumOfEWMATruncateSize - 1) else l).length ≠ 0 := by
  split
  · next hgt =>
    have hgt1000 : l.length > 1000 := by simpa [MaxNumOfEWMA] using hgt
    simp only [List.length_drop, MaxNumOfEWMATruncateSize]
    omega
  · exact h

theorem vidya_update_input_ne (s : VIDYA) (v : ℚ) :
    (s.update v).input.length ≠ 0 := by
  unfold VIDYA.update
  by_cases h : s.values.length = 0
  · simp [h]
  · simp only [if_neg h]
    exact truncKeep_length_pos (s.input ++ [v]) (by simp)

theorem cci_update_tp_ne (sqrtF : ℚ → ℚ) (s : CCI) (v : ℚ) :
    (CCI.update sqrtF s v).typicalPrice.length ≠ 0 := by
  unfold CCI.update
  by_cases h : s.typicalPrice.length = 0
  · simp [h]
  · simp only [if_neg h]
    split <;> split <;> simp

theorem vidya_calc_eq_generic (inc : VIDYA) (ks : List KLine) :
    inc.calculateAndUpdate ks =
      coldSteadyCalc (fun s => s.input.length == 0)
        (fun s k => s.update k.close) inc ks := rfl

theorem cci_calc_eq_generic (sqrtF : ℚ → ℚ) (inc : CCI) (ks : List KLine) :
    CCI.calculateAndUpdate sqrtF inc ks =
      coldSteadyCalc (fun s => s.typicalPrice.length == 0)
        (fun s k => CCI.update sqrtF s ((k.high + k.low + k.close) / 3)) inc ks := rfl

/-- C3: feeding a whole candle sequence once to a fresh indicator via the
cold-start path of `calculateAndUpdate` yields exactly the same final
state (hence the same value sequence) as feeding the candles one at a time
via the steady-state path, for VIDYA and for CCI (the latter for every
model of `math.Sqrt`). -/
theorem claim_C3 :
    (∀ (w : Nat) (ks : List KLine),
      steadyFeed VIDYA.calculateAndUpdate (VIDYA.new w) ks
        = VIDYA.calculateAndUpdate (VIDYA.new w) ks)
    ∧ (∀ (sqrtF : ℚ → ℚ) (w : Nat) (ks : List KLine),
      steadyFeed (CCI.calculateAndUpdate sqrtF) (CCI.new w) ks
        = CCI.calculateAndUpdate sqrtF (CCI.new w) ks) := by
  constructor
  · intro w ks
    have hfun : VIDYA.calculateAndUpdate =
        coldSteadyCalc (fun s => s.input.length == 0) (fun s k => s.update k.close) := by
      funext inc kl
      exact vidya_calc_eq_generic inc kl
    have hupd : ∀ (s : VIDYA) (k : KLine),
        ((s.update k.close).input.length == 0) = false := by
      intro s k
      simpa using vidya_update_input_ne s k.close
    rw [hfun, steadyFeed_eq_foldl _ _ hupd (VIDYA.new w) rfl ks,
      coldCalc_eq_foldl _ _ (VIDYA.new w) rfl ks]
  · intro sqrtF w ks
    have hfun : CCI.calculateAndUpdate sqrtF =
        coldSteadyCalc (fun s => s.typicalPrice.length == 0)
          (fun s k => CCI.update sqrtF s ((k.high + k.low + k.close) / 3)) := by
      funext inc kl
      exact cci_calc_eq_generic sqrtF inc kl
    have hupd : ∀ (s : CCI) (k : KLine),
        ((CCI.update sqrtF s ((k.high + k.low + k.close) / 3)).typicalPrice.length == 0)
          = false := by
      intro s k
      simpa using cci_update_tp_ne sqrtF s ((k.high + k.low + k.close) / 3)
    rw [hfun, steadyFeed_eq_foldl _ _ hupd (CCI.new w) rfl ks,
      coldCalc_eq_foldl _ _ (CCI.new w) rfl ks]

/-! ## OBV (pkg/indicator, same file as VIDYA in the sources) -/

/-- The state of `indicator.OBV`: value history, the remembered price
`PrePrice`, and the duplicate-suppression high-water mark. -/
structure OBV where
  window : Nat
  values : List ℚ
  prePrice : ℚ
  endTime : Int
deriving DecidableEq

/-- A freshly constructed OBV. -/
def OBV.new (window : Nat) : OBV := ⟨window, [], 0, 0⟩

/-- `OBV.Last`: last value, 0 when empty. -/
def OBV.lastValue (inc : OBV) : ℚ :=
  if inc.values.length = 0 then 0 else Float64Slice.last inc.values

/-- Translated verbatim from `OBV.Update` (OBV source lines 118-130): on
the first call it stores the price and pushes the volume; afterwards it
compares `volume < inc.PrePrice` (sic — the volume against the remembered
price) and pushes `Last() ∓ volume`; `PrePrice` is never refreshed after
the first call, and no truncation is applied to `Values`. -/
def OBV.update (inc : OBV) (price volume : ℚ) : OBV :=
  if inc.values.length = 0 then
    { inc with prePrice := price, values := inc.values ++ [volume] }
  else
    if volume < inc.prePrice then
      { inc with values := inc.values ++ [inc.lastValue - volume] }
    else
      { inc with values := inc.values ++ [inc.lastValue + volume] }

/-! ## EWMA and DEMA (part_002 of the sources) -/

/-- Modelled from the spec: `indicator.EWMA` (ewma.go, not among the
provided sources); spec §4.2: "exponential weighted moving average with
smoothing factor `2/(window+1)`", with the bounded value history of §3. -/
structure EWMA where
  window : Nat
  values : List ℚ
deriving DecidableEq

/-- Last EWMA value, 0 when empty. -/
def EWMA.lastValue (inc : EWMA) : ℚ :=
  Float64Slice.last inc.values

/-- Modelled from the spec: one EWMA step with factor `2/(window+1)`,
seeded with the first value, truncating past the cap. -/
def EWMA.update (inc : EWMA) (value : ℚ) : EWMA :=
  let m : ℚ := 2 / ((inc.window : ℚ) + 1)
  if inc.values.length = 0 then { inc with values := [value] }
  else
    let vs := inc.values ++ [(1 - m) * inc.lastValue + m * value]
    { inc with values := if vs.length > MaxNumOfEWMA then
        vs.drop (MaxNumOfEWMATruncateSize - 1) else vs }

/-- The state of `indicator.DEMA` (part_002): value history and the two
cascaded EWMAs. -/
structure DEMA where
  window : Nat
  values : List ℚ
  a1 : EWMA
  a2 : EWMA
deriving DecidableEq

/-- A freshly constructed DEMA (the EWMAs are allocated on first update). -/
def DEMA.new (window : Nat) : DEMA := ⟨window, [], ⟨window, []⟩, ⟨window, []⟩⟩

/-- Translated from `DEMA.Update` (part_002 lines 20-32): (re)allocate the
EWMAs when the value history is empty, cascade them, push
`2·a1.Last − a2.Last` and truncate past `MaxNumOfEWMA`. -/
def DEMA.update (inc : DEMA) (value : ℚ) : DEMA :=
  let a1p := if inc.values.length = 0 then (⟨inc.window, []⟩ : EWMA) else inc.a1
  let a2p := if inc.values.length = 0 then (⟨inc.window, []⟩ : EWMA) else inc.a2
  let a1 := a1p.update value
  let a2 := a2p.update a1.lastValue
  let vs := inc.values ++ [2 * a1.lastValue - a2.lastValue]
  { inc with
    a1 := a1
    a2 := a2
    values := if vs.length > MaxNumOfEWMA then
      vs.drop (MaxNumOfEWMATruncateSize - 1) else vs }

theorem truncKeep_length_le (l : List ℚ) (h : l.length ≤ MaxNumOfEWMA + 1) :
    (if l.length > MaxNumOfEWMA then
      l.drop (MaxNumOfEWMATruncateSize - 1) else l).length ≤ MaxNumOfEWMA := by
  simp only [MaxNumOfEWMA, MaxNumOfEWMATruncateSize] at *
  split
  · simp only [List.length_drop]
    omega
  · omega

theorem dema_update_length {inc : DEMA} (v : ℚ)
    (h : inc.values.length ≤ MaxNumOfEWMA) :
    (inc.update v).values.length ≤ MaxNumOfEWMA := by
  unfold DEMA.update
  refine truncKeep_length_le _ ?_
  simp only [List.length_append, List.length_cons, List.length_nil]
  omega

theorem obv_update_length (inc : OBV) (p v : ℚ) :
    (inc.update p v).values.length = inc.values.length + 1 := by
  unfold OBV.update
  split
  · simp
  · split <;> simp

theorem obv_feed_length (inc : OBV) (xs : List (ℚ × ℚ)) :
    (xs.foldl (fun s pv => s.update pv.1 pv.2) inc).values.length
      = inc.values.length + xs.length := by
  induction xs generalizing inc with
  | nil => simp
  | cons x xs ih =>
    simp only [List.foldl_cons, List.length_cons, ih, obv_update_length]
    omega

/-- C6 (amended): indicators that apply the truncation step keep their
value history within the fixed cap `MaxNumOfEWMA` after every update
(shown for DEMA, from a fresh indicator through any update sequence, with
the oldest values dropped and the most recent retained), but `OBV.Update`
applies no truncation: its value history grows by exactly one entry per
update. -/
theorem claim_C6 :
    (∀ (w : Nat) (xs : List ℚ),
      (xs.foldl DEMA.update (DEMA.new w)).values.length ≤ MaxNumOfEWMA)
    ∧ (∀ (inc : OBV) (xs : List (ℚ × ℚ)),
      (xs.foldl (fun s pv => s.update pv.1 pv.2) inc).values.length
        = inc.values.length + xs.length) := by
  constructor
  · intro w xs
    have hgen : ∀ (ys : List ℚ) (inc : DEMA), inc.values.length ≤ MaxNumOfEWMA →
        (ys.foldl DEMA.update inc).values.length ≤ MaxNumOfEWMA := by
      intro ys
      induction ys with
      | nil =>
        intro inc h
        simpa using h
      | cons x ys ih =>
        intro inc h
        exact ih _ (dema_update_length x h)
    exact hgen xs (DEMA.new w) (by simp [DEMA.new])
  · intro inc xs
    exact obv_feed_length inc xs

/-- C6 counterexample: after 1001 OBV updates the value history holds 1001
entries, exceeding the fixed cap `MaxNumOfEWMA = 1000` — the claim's
"every indicator" fails on OBV, whose `Update` omits the truncation. -/
theorem claim_C6_cex :
    ((List.replicate 1001 ((1 : ℚ), (1 : ℚ))).foldl
      (fun s pv => s.update pv.1 pv.2) (OBV.new 0)).values.length
      > MaxNumOfEWMA := by
  rw [obv_feed_length]
  simp only [OBV.new, List.length_replicate, List.length_nil, MaxNumOfEWMA]
  norm_num

/-- C7: evaluation of `OBV.Update` at the failing input.  After
`Update(price 10, volume 5)` then `Update(price 3, volume 20)` the code
pushes `5 + 20 = 25`, because it compares the volume 20 against the
remembered price 10 (never refreshed) instead of comparing the price 3
against the previous price 10; the on-balance-volume accumulator of the
claim would push `5 − 20 = −15` and remember price 3. -/
theorem claim_C7_eval :
    ((OBV.new 0).update 10 5).update 3 20
      = { window := 0, values := [5, 25], prePrice := 10, endTime := 0 }
    ∧ ((OBV.new 0).update 10 5).update 3 20
      ≠ { window := 0, values := [5, -15], prePrice := 3, endTime := 0 } := by
  have h : ((OBV.new 0).update 10 5).update 3 20
      = { window := 0, values := [5, 25], prePrice := 10, endTime := 0 } := by
    norm_num [OBV.new, OBV.update, OBV.lastValue, Float64Slice.last]
  refine ⟨h, ?_⟩
  rw [h]
  intro hc
  have hpre := congrArg OBV.prePrice hc
  norm_num at hpre

/-! ## RMA and ATR (part_004 and atr.go of the sources) -/

/-- The state of `indicator.RMA` (part_004): running moving average with a
warm-up counter, optional adjustment, and the duplicate-suppression
high-water mark `EndTime`. -/
structure RMA where
  window : Nat
  values : List ℚ
  counter : Nat
  adjust : Bool
  tmp : ℚ
  sum : ℚ
  endTime : Int
deriving DecidableEq

/-- `RMA.Last`: the last value (0 when empty, per `Float64Slice.Last`). -/
def RMA.lastValue (r : RMA) : ℚ :=
  Float64Slice.last r.values

/-- Translated from `RMA.Update` (part_004 lines 24-45): seed on the first
call, otherwise one adjusted or plain RMA step with `lambda = 1/window`;
increment the counter; push 0 during warm-up, the running value after. -/
def RMA.update (inc : RMA) (x : ℚ) : RMA :=
  let lambda : ℚ := 1 / (inc.window : ℚ)
  let ts : ℚ × ℚ :=
    if inc.counter = 0 then (x, 1)
    else if inc.adjust then
      let s := inc.sum * (1 - lambda) + 1
      (inc.tmp + (x - inc.tmp) / s, s)
    else (inc.tmp * (1 - lambda) + x * lambda, inc.sum)
  let counter := inc.counter + 1
  if counter < inc.window then
    { inc with
      tmp := ts.1
      sum := ts.2
      counter := counter
      values := inc.values ++ [0] }
  else
    { inc with
      tmp := ts.1
      sum := ts.2
      counter := counter
      values := inc.values ++ [ts.1] }

/-- The loop of `RMA.calculateAndUpdate` (part_004 lines 66-71): a candle
whose end time is not strictly after the recorded high-water mark is
skipped (`continue`) — the check is disabled while the mark is the zero
time — otherwise `Update` runs on its close. -/
def RMA.processKLines (inc : RMA) (kLines : List KLine) : RMA :=
  kLines.foldl (fun s k =>
    if s.endTime ≠ 0 ∧ ¬ s.endTime < k.endTime then s else s.update k.close) inc

/-- Translated from `RMA.calculateAndUpdate` (part_004 lines 65-75): run
the loop, then record the last candle's end time as the new mark (Go
indexes `kLines[len-1]` and would panic on an empty window; modelled as no
mark change there). -/
def RMA.calculateAndUpdate (inc : RMA) (kLines : List KLine) : RMA :=
  let inc1 := RMA.processKLines inc kLines
  match kLines.getLast? with
  | some k => { inc1 with endTime := k.endTime }
  | none => inc1

theorem rma_update_endTime (inc : RMA) (x : ℚ) :
    (inc.update x).endTime = inc.endTime := by
  unfold RMA.update
  simp only [apply_ite RMA.endTime, ite_self]

/-- The state of `indicator.ATR` (atr.go): percentage volatility history,
remembered previous close, the inner RMA (allocated on first update) and
the high-water mark. -/
structure ATR where
  window : Nat
  percentageVolatility : List ℚ
  previousClose : ℚ
  rma : Option RMA
  endTime : Int
deriving DecidableEq

/-- Translated from `ATR.Update` (atr.go lines 22-50): allocate the RMA
and remember the close on the first call; afterwards feed the true range
`max(high − low, |high − prevClose|, |low − prevClose|)` to the RMA and
push `atr / close`.  Go panics when the window is not positive; modelled
as the identity on that path. -/
def ATR.update (inc : ATR) (high low cloze : ℚ) : ATR :=
  if inc.window = 0 then inc
  else
    match inc.rma with
    | none =>
        { inc with
          rma := some ⟨inc.window, [], 0, false, 0, 0, 0⟩
          previousClose := cloze }
    | some r =>
        let tr0 := high - low
        let hc := |high - inc.previousClose|
        let lc := |low - inc.previousClose|
        let tr1 := if tr0 < hc then hc else tr0
        let trueRange := if tr1 < lc then lc else tr1
        let r2 := r.update trueRange
        { inc with
          previousClose := cloze
          rma := some r2
          percentageVolatility := inc.percentageVolatility ++ [RMA.lastValue r2 / cloze] }

/-- The loop of `ATR.calculateAndUpdate` (atr.go lines 76-81): same skip
rule as RMA's. -/
def ATR.processKLines (inc : ATR) (kLines : List KLine) : ATR :=
  kLines.foldl (fun s k =>
    if s.endTime ≠ 0 ∧ ¬ s.endTime < k.endTime then s
    else s.update k.high k.low k.close) inc

/-- Translated from `ATR.calculateAndUpdate` (atr.go lines 75-85). -/
def ATR.calculateAndUpdate (inc : ATR) (kLines : List KLine) : ATR :=
  let inc1 := ATR.processKLines inc kLines
  match kLines.getLast? with
  | some k => { inc1 with endTime := k.endTime }
  | none => inc1

theorem atr_update_endTime (inc : ATR) (h l c : ℚ) :
    (inc.update h l c).endTime = inc.endTime := by
  unfold ATR.update
  split
  · rfl
  · split <;> rfl

/-- Skipped candles contribute nothing: folding the skip-or-update step
over a window equals folding it over the window restricted to candles
strictly newer than the (nonzero) high-water mark. -/
theorem process_filter_stale {σ : Type} (endT : σ → Int) (upd : σ → KLine → σ)
    (hpres : ∀ s k, endT (upd s k) = endT s) :
    ∀ (ks : List KLine) (s : σ), endT s ≠ 0 →
      ks.foldl (fun s k => if endT s ≠ 0 ∧ ¬ endT s < k.endTime then s else upd s k) s
        = (ks.filter (fun k => decide (endT s < k.endTime))).foldl
            (fun s k => if endT s ≠ 0 ∧ ¬ endT s < k.endTime then s else upd s k) s := by
  intro ks
  induction ks with
  | nil =>
    intro s _
    rfl
  | cons k ks ih =>
    intro s h
    by_cases hk : endT s < k.endTime
    · have hcond : ¬ (endT s ≠ 0 ∧ ¬ endT s < k.endTime) := fun hc => hc.2 hk
      have hnew := hpres s k
      have hdec : decide (endT s < k.endTime) = true := decide_eq_true hk
      rw [List.filter_cons, if_pos hdec]
      simp only [List.foldl_cons, if_neg hcond]
      rw [ih (upd s k) (by rw [hnew]; exact h)]
      simp only [hnew]
    · have hcond : endT s ≠ 0 ∧ ¬ endT s < k.endTime := ⟨h, hk⟩
      have hdec : decide (endT s < k.endTime) = false := decide_eq_false hk
      rw [List.filter_cons, if_neg (by simp [hdec])]
      simp only [List.foldl_cons, if_pos hcond]
      exact ih s h

/-! ## The SyncOrders consumption loop (for C9) -/

/-- The signals visible to the `select` between processed records in
`SyncService.SyncOrders` (sync.go lines 33-44): whether the cancellation
signal `ctx.Done()` is ready and whether an error is pending on the side
channel `errC`. -/
structure LoopSignals where
  ctxDone : Bool
  errPending : Option String
deriving DecidableEq

/-- What the `select` statement resolves to: abort with the cancellation
error, abort with the side-channel error, or fall through to the default
branch and insert the next record. -/
inductive SelectOutcome where
  | canceled
  | failed (e : String)
  | proceed
deriving DecidableEq

/-- Translated from the `select` in `SyncService.SyncOrders` (sync.go lines
34-44), with Go semantics: a ready communication case may be chosen —
when several are ready Go chooses among them uniformly at random — and the
`default` branch is taken exactly when no case is ready. -/
inductive SelectStep : LoopSignals → SelectOutcome → Prop where
  | cancel (s : LoopSignals) : s.ctxDone = true → SelectStep s .canceled
  | fail (s : LoopSignals) (e : String) :
      s.errPending = some e → SelectStep s (.failed e)
  | dflt (s : LoopSignals) : s.ctxDone = false → s.errPending = none →
      SelectStep s .proceed

/-- C4: in a window delivered to an indicator tracking a recorded (nonzero)
high-water mark `EndTime`, every candle whose end time is not strictly
after the mark is skipped — the `Update` step is not applied and the whole
state, value history included, is as if the stale candles were absent —
shown for RMA and ATR. -/
theorem claim_C4 :
    (∀ (inc : RMA) (ks : List KLine), inc.endTime ≠ 0 →
      RMA.processKLines inc ks
        = RMA.processKLines inc (ks.filter (fun k => decide (inc.endTime < k.endTime))))
    ∧ (∀ (inc : ATR) (ks : List KLine), inc.endTime ≠ 0 →
      ATR.processKLines inc ks
        = ATR.processKLines inc (ks.filter (fun k => decide (inc.endTime < k.endTime)))) := by
  constructor
  · intro inc ks h
    exact process_filter_stale (fun s => s.endTime) (fun s k => s.update k.close)
      (fun s k => rma_update_endTime s k.close) ks inc h
  · intro inc ks h
    exact process_filter_stale (fun s => s.endTime) (fun s k => s.update k.high k.low k.close)
      (fun s k => atr_update_endTime s k.high k.low k.close) ks inc h

/-- Witness for C4: with high-water mark 5, a window holding a stale candle
(end time 3) and a fresh one (end time 7) produces the same state as the
window with the stale candle filtered out, for both RMA and ATR. -/
theorem claim_C4_witness :
    ((5 : Int) ≠ 0 ∧
      RMA.processKLines (RMA.mk 14 [] 0 false 0 0 5)
          [KLine.mk 1 1 1 1 3, KLine.mk 2 2 2 2 7]
        = RMA.processKLines (RMA.mk 14 [] 0 false 0 0 5)
            ([KLine.mk 1 1 1 1 3, KLine.mk 2 2 2 2 7].filter
              (fun k => decide ((RMA.mk 14 [] 0 false 0 0 5).endTime < k.endTime))))
    ∧ ((5 : Int) ≠ 0 ∧
      ATR.processKLines (ATR.mk 14 [] 0 none 5)
          [KLine.mk 1 1 1 1 3, KLine.mk 2 2 2 2 7]
        = ATR.processKLines (ATR.mk 14 [] 0 none 5)
            ([KLine.mk 1 1 1 1 3, KLine.mk 2 2 2 2 7].filter
              (fun k => decide ((ATR.mk 14 [] 0 none 5).endTime < k.endTime)))) :=
  ⟨⟨by decide, claim_C4.1 (RMA.mk 14 [] 0 false 0 0 5)
      [KLine.mk 1 1 1 1 3, KLine.mk 2 2 2 2 7] (by decide)⟩,
   ⟨by decide, claim_C4.2 (ATR.mk 14 [] 0 none 5)
      [KLine.mk 1 1 1 1 3, KLine.mk 2 2 2 2 7] (by decide)⟩⟩

/-- C9 (amended): between processed records the loop checks both the
cancellation signal and the side-channel error; while either is pending it
cannot fall through to process the next record, and it aborts propagating
a pending signal — but when both are pending simultaneously either one may
be propagated (Go's `select` chooses among ready cases pseudo-randomly),
so the error does not take precedence over cancellation. -/
theorem claim_C9 (s : LoopSignals) (e : String)
    (hc : s.ctxDone = true) (he : s.errPending = some e) :
    SelectStep s .canceled ∧ SelectStep s (.failed e) ∧ ¬ SelectStep s .proceed := by
  refine ⟨SelectStep.cancel s hc, SelectStep.fail s e he, fun hstep => ?_⟩
  cases hstep with
  | dflt hdone herr => rw [hc] at hdone; cases hdone

/-- Witness for C9 at a concrete signal state with both the cancellation
and an error pending. -/
theorem claim_C9_witness :
    (LoopSignals.mk true (some "query failed")).ctxDone = true ∧
    (LoopSignals.mk true (some "query failed")).errPending = some "query failed" ∧
    (SelectStep (LoopSignals.mk true (some "query failed")) .canceled ∧
      SelectStep (LoopSignals.mk true (some "query failed")) (.failed "query failed") ∧
      ¬ SelectStep (LoopSignals.mk true (some "query failed")) .proceed) :=
  ⟨rfl, rfl, claim_C9 (LoopSignals.mk true (some "query failed")) "query failed" rfl rfl⟩

/-- C9 counterexample: with both the cancellation signal and an error
pending, the select may resolve to cancellation — the claim that the error
is the one propagated whenever both are pending is false. -/
theorem claim_C9_cex :
    ¬ (∀ o : SelectOutcome, SelectStep (LoopSignals.mk true (some "boom")) o →
        o = SelectOutcome.failed "boom") := by
  intro hall
  have hcanceled : SelectStep (LoopSignals.mk true (some "boom")) .canceled :=
    SelectStep.cancel _ rfl
  have := hall .canceled hcanceled
  exact absurd this (by decide)

/-! ## Claim theorems: C1, C5 -/

/-- C1: the circuit-break evaluation computes
`unrealizedPnL = base × (mark − cost)`, `totalPnL = unrealizedPnL + realized`,
halts exactly when the position is nonzero and `totalPnL ≤ breakThreshold`
(a zero position never halts), and on the two concrete test inputs
(base 10, cost 30040 resp. 30030, mark 30000, realized −100, threshold −500)
returns `true` resp. `false`. -/
theorem claim_C1 :
    (∀ b c m r t : ℚ,
      CircuitBreakRiskControl.isHalted b c m r t = true ↔
        b ≠ 0 ∧ b * (m - c) + r ≤ t)
    ∧ CircuitBreakRiskControl.isHalted 10 30040 30000 (-100) (-500) = true
    ∧ CircuitBreakRiskControl.isHalted 10 30030 30000 (-100) (-500) = false := by
  refine ⟨fun b c m r t => ?_, by norm_num [CircuitBreakRiskControl.isHalted],
    by norm_num [CircuitBreakRiskControl.isHalted]⟩
  unfold CircuitBreakRiskControl.isHalted
  by_cases hb : b = 0 <;> simp [hb]

/-- C2: for a filled sell order, if some bid is flagged filled, `WriteOff`
removes exactly one filled bid together with the triggering ask and returns
true; if no bid is flagged filled it returns false and mutates nothing;
symmetric for a filled buy against the ask side. -/
theorem claim_C2 (B : LocalActiveOrderBook) (o : Order)
    (hstat : o.status = OrderStatusFilled) :
    (o.side = SideTypeSell →
      ((∀ x ∈ B.bids, x.status ≠ OrderStatusFilled) → B.writeOff o = (false, B))
      ∧ ((B.bids.map Order.orderID).Nodup →
          (∃ x ∈ B.bids, x.status = OrderStatusFilled) →
          ∃ f ∈ B.bids, f.status = OrderStatusFilled ∧
            B.writeOff o =
              (true, ⟨B.bids.deleteKey f.orderID, B.asks.deleteKey o.orderID⟩) ∧
            (B.bids.deleteKey f.orderID).length = B.bids.length - 1 ∧
            (∀ x ∈ B.bids, x.orderID ≠ f.orderID → x ∈ B.bids.deleteKey f.orderID)))
    ∧ (o.side = SideTypeBuy →
      ((∀ x ∈ B.asks, x.status ≠ OrderStatusFilled) → B.writeOff o = (false, B))
      ∧ ((B.asks.map Order.orderID).Nodup →
          (∃ x ∈ B.asks, x.status = OrderStatusFilled) →
          ∃ f ∈ B.asks, f.status = OrderStatusFilled ∧
            B.writeOff o =
              (true, ⟨B.bids.deleteKey o.orderID, B.asks.deleteKey f.orderID⟩) ∧
            (B.asks.deleteKey f.orderID).length = B.asks.length - 1 ∧
            (∀ x ∈ B.asks, x.orderID ≠ f.orderID → x ∈ B.asks.deleteKey f.orderID))) := by
  have h1 : (o.status != OrderStatusFilled) = false := by simp [hstat]
  constructor
  · intro hside
    have h2 : (o.side == SideTypeSell) = true := by simp [hside]
    constructor
    · intro hnone
      have hn : B.bids.anyFilled = none :=
        (SyncOrderMap.anyFilled_eq_none_iff _).mpr hnone
      simp [LocalActiveOrderBook.writeOff, h1, h2, hn]
    · intro hnd hex
      rcases SyncOrderMap.anyFilled_isSome_of_exists _ hex with ⟨f, hff⟩
      rcases SyncOrderMap.anyFilled_mem hff with ⟨hfm, hfs⟩
      refine ⟨f, hfm, hfs, ?_, SyncOrderMap.length_deleteKey_of_mem hfm hnd,
        fun x hx hne => SyncOrderMap.mem_deleteKey_of_ne hx hne⟩
      simp [LocalActiveOrderBook.writeOff, h1, h2, hff]
  · intro hside
    have h2 : (o.side == SideTypeSell) = false := by
      rw [hside]; decide
    have h3 : (o.side == SideTypeBuy) = true := by simp [hside]
    constructor
    · intro hnone
      have hn : B.asks.anyFilled = none :=
        (SyncOrderMap.anyFilled_eq_none_iff _).mpr hnone
      simp [LocalActiveOrderBook.writeOff, h1, h2, h3, hn]
    · intro hnd hex
      rcases SyncOrderMap.anyFilled_isSome_of_exists _ hex with ⟨f, hff⟩
      rcases SyncOrderMap.anyFilled_mem hff with ⟨hfm, hfs⟩
      refine ⟨f, hfm, hfs, ?_, SyncOrderMap.length_deleteKey_of_mem hfm hnd,
        fun x hx hne => SyncOrderMap.mem_deleteKey_of_ne hx hne⟩
      simp [LocalActiveOrderBook.writeOff, h1, h2, h3, hff]

/-- Witness for C2 at a concrete book with one filled bid and one filled ask. -/
theorem claim_C2_witness :
    (Order.mk 2 "SELL" "FILLED").status = OrderStatusFilled ∧
    (Order.mk 2 "SELL" "FILLED").side = SideTypeSell ∧
    (([Order.mk 1 "BUY" "FILLED"].map Order.orderID).Nodup) ∧
    (∃ x ∈ [Order.mk 1 "BUY" "FILLED"], x.status = OrderStatusFilled) ∧
    (∃ f ∈ [Order.mk 1 "BUY" "FILLED"], f.status = OrderStatusFilled ∧
      (LocalActiveOrderBook.mk [Order.mk 1 "BUY" "FILLED"]
          [Order.mk 2 "SELL" "FILLED"]).writeOff (Order.mk 2 "SELL" "FILLED") =
        (true, ⟨SyncOrderMap.deleteKey [Order.mk 1 "BUY" "FILLED"] f.orderID,
                SyncOrderMap.deleteKey [Order.mk 2 "SELL" "FILLED"]
                  (Order.mk 2 "SELL" "FILLED").orderID⟩) ∧
      (SyncOrderMap.deleteKey [Order.mk 1 "BUY" "FILLED"] f.orderID).length =
        ([Order.mk 1 "BUY" "FILLED"] : List Order).length - 1 ∧
      (∀ x ∈ ([Order.mk 1 "BUY" "FILLED"] : List Order),
        x.orderID ≠ f.orderID →
          x ∈ SyncOrderMap.deleteKey [Order.mk 1 "BUY" "FILLED"] f.orderID)) :=
  ⟨rfl, rfl, by decide, by decide,
    ((claim_C2 (LocalActiveOrderBook.mk [Order.mk 1 "BUY" "FILLED"]
        [Order.mk 2 "SELL" "FILLED"]) (Order.mk 2 "SELL" "FILLED") rfl).1
      rfl).2 (by decide) (by decide)⟩

/-- C10: `WriteOff` on an order that is not filled returns false and leaves
both sides unchanged, regardless of the book and the order's side; likewise
on a filled order whose side is neither buy nor sell. -/
theorem claim_C10 (B : LocalActiveOrderBook) (o : Order) :
    (o.status ≠ OrderStatusFilled → B.writeOff o = (false, B))
    ∧ (o.side ≠ SideTypeBuy → o.side ≠ SideTypeSell → B.writeOff o = (false, B)) := by
  constructor
  · intro h
    have h1 : (o.status != OrderStatusFilled) = true := by simpa using h
    simp [LocalActiveOrderBook.writeOff, h1]
  · intro hb hs
    have h2 : (o.side == SideTypeSell) = false := by simpa using hs
    have h3 : (o.side == SideTypeBuy) = false := by simpa using hb
    by_cases h : o.status = OrderStatusFilled
    · have h1 : (o.status != OrderStatusFilled) = false := by simp [h]
      simp [LocalActiveOrderBook.writeOff, h1, h2, h3]
    · have h1 : (o.status != OrderStatusFilled) = true := by simpa using h
      simp [LocalActiveOrderBook.writeOff, h1]

/-- Witness for C10: a new (unfilled) sell order and a filled order with an
unrecognized side both leave a concrete book untouched. -/
theorem claim_C10_witness :
    ((Order.mk 7 "SELL" "NEW").status ≠ OrderStatusFilled ∧
      (LocalActiveOrderBook.mk [Order.mk 1 "BUY" "FILLED"]
          []).writeOff (Order.mk 7 "SELL" "NEW") =
        (false, LocalActiveOrderBook.mk [Order.mk 1 "BUY" "FILLED"] []))
    ∧ ((Order.mk 8 "BOTH" "FILLED").side ≠ SideTypeBuy ∧
      (Order.mk 8 "BOTH" "FILLED").side ≠ SideTypeSell ∧
      (LocalActiveOrderBook.mk [Order.mk 1 "BUY" "FILLED"]
          []).writeOff (Order.mk 8 "BOTH" "FILLED") =
        (false, LocalActiveOrderBook.mk [Order.mk 1 "BUY" "FILLED"] [])) :=
  ⟨⟨by decide,
    (claim_C10 (LocalActiveOrderBook.mk [Order.mk 1 "BUY" "FILLED"] [])
      (Order.mk 7 "SELL" "NEW")).1 (by decide)⟩,
   ⟨by decide, by decide,
    (claim_C10 (LocalActiveOrderBook.mk [Order.mk 1 "BUY" "FILLED"] [])
      (Order.mk 8 "BOTH" "FILLED")).2 (by decide) (by decide)⟩⟩

/-- C8: starting from the empty book, no sequence of Add, Delete and
WriteOff operations over side-consistent orders (every mention of an
OrderID carries the same side — OrderIDs are exchange-unique per spec §3)
ever produces a book with the same OrderID present on both sides. -/
theorem claim_C8 (ops : List BookOp)
    (hcons : ∀ o1 ∈ opsOrders ops, ∀ o2 ∈ opsOrders ops,
      o1.orderID = o2.orderID → o1.side = o2.side) (n : Nat) :
    ∀ x ∈ (runOps (ops.take n)).bids, ∀ y ∈ (runOps (ops.take n)).asks,
      x.orderID ≠ y.orderID := by
  intro x hx y hy hxy
  have hsub : ∀ o ∈ opsOrders (ops.take n), o ∈ opsOrders ops := by
    intro o ho
    simp only [opsOrders] at ho ⊢
    rcases List.mem_flatten.mp ho with ⟨l, hl, hol⟩
    rcases List.mem_map.mp hl with ⟨op, hop, rfl⟩
    exact List.mem_flatten.mpr
      ⟨_, List.mem_map.mpr ⟨op, List.take_subset n ops hop, rfl⟩, hol⟩
  have hnew : BookSides (opsOrders ops) LocalActiveOrderBook.new := by
    constructor <;> intro x hx <;> simp [LocalActiveOrderBook.new] at hx
  have hinv : BookSides (opsOrders ops) (runOps (ops.take n)) :=
    bookSides_run (ops.take n) LocalActiveOrderBook.new hnew hsub
  rcases hinv.1 x hx with ⟨hxs, hxS⟩
  rcases hinv.2 y hy with ⟨hys, hyS⟩
  have h := hcons x hxS y hyS hxy
  rw [hxs, hys] at h
  exact absurd h (by decide)

/-- Witness for C8: a concrete side-consistent operation sequence (add a
bid and a filled ask, then write the ask off) never puts one OrderID on
both sides. -/
theorem claim_C8_witness :
    (∀ o1 ∈ opsOrders [BookOp.add [Order.mk 1 "BUY" "NEW", Order.mk 2 "SELL" "FILLED"],
        BookOp.writeOff (Order.mk 2 "SELL" "FILLED")],
      ∀ o2 ∈ opsOrders [BookOp.add [Order.mk 1 "BUY" "NEW", Order.mk 2 "SELL" "FILLED"],
        BookOp.writeOff (Order.mk 2 "SELL" "FILLED")],
      o1.orderID = o2.orderID → o1.side = o2.side)
    ∧ (∀ x ∈ (runOps (([BookOp.add [Order.mk 1 "BUY" "NEW", Order.mk 2 "SELL" "FILLED"],
          BookOp.writeOff (Order.mk 2 "SELL" "FILLED")]).take 2)).bids,
        ∀ y ∈ (runOps (([BookOp.add [Order.mk 1 "BUY" "NEW", Order.mk 2 "SELL" "FILLED"],
          BookOp.writeOff (Order.mk 2 "SELL" "FILLED")]).take 2)).asks,
        x.orderID ≠ y.orderID) :=
  ⟨by decide,
   claim_C8 [BookOp.add [Order.mk 1 "BUY" "NEW", Order.mk 2 "SELL" "FILLED"],
      BookOp.writeOff (Order.mk 2 "SELL" "FILLED")] (by decide) 2⟩

/-- C5: `SyncTrades` (resp. `SyncOrders`) uses the last persisted record's
timestamp as start time and its ID as cursor when storage holds one,
overriding the caller-supplied fallback; otherwise it uses the fallback
start time with cursor 0; and the fallback defaults to 7 days before now. -/
theorem claim_C5 :
    (∀ (t : Trade) (fb : Int),
      SyncService.syncTradesQuery (some t) fb =
        { startTime := t.time, limit := 200, lastTradeID := t.id })
    ∧ (∀ fb : Int,
      SyncService.syncTradesQuery none fb =
        { startTime := fb, limit := 200, lastTradeID := 0 })
    ∧ (∀ (o : OrderRecord) (fb : Int),
      SyncService.syncOrdersQuery (some o) fb =
        { since := o.creationTime, lastOrderID := o.orderID })
    ∧ (∀ fb : Int,
      SyncService.syncOrdersQuery none fb = { since := fb, lastOrderID := 0 })
    ∧ (∀ now : Int, Environment.defaultTradeScanTime now = now - 7 * 86400) := by
  exact ⟨fun _ _ => rfl, fun _ => rfl, fun _ _ => rfl, fun _ => rfl, fun _ => rfl⟩
